import Mathlib

/-!
Verification of the topic-clustering and heat-scoring core of the blog topic
monitor. The Python sources `scripts/analyze_topics.py` and
`scripts/calculate_heat.py` are shallowly embedded: JSON records become
structures (a key read with `.get(k, d)` becomes a total field holding the
default when the key is absent), Python `float` arithmetic becomes exact `ℚ`
arithmetic, dictionaries keyed by strings become association lists in
insertion order, and the external language-model call becomes an explicit
`Except` parameter (`.error` covers both a raised exception and unparsable
output, which the source handles in a single `except` block).
-/

/-- An RSS article as handed to `cluster_topics` in `analyze_topics.py`:
the fetched record enriched with the extractor's annotations
(`main_topics`, `discussion_depth`, `category`). Keys that the source reads
with `.get(key, default)` are modelled as total fields holding that default
when the key is missing. -/
structure Article where
  title : String
  link : String
  source : String
  summary : String
  content : String
  published : String
  category : String
  main_topics : List String
  discussion_depth : List (String × ℚ)
deriving DecidableEq, Repr

/-- `article.get('discussion_depth', {}).get(topic, 0.5)`
(`analyze_topics.py:218`): first binding for the key, default `0.5`. -/
def depthLookup (dd : List (String × ℚ)) (t : String) : ℚ :=
  match dd.find? (fun p => p.1 = t) with
  | some p => p.2
  | none => 1/2

/-- One `(topic, article, depth)` record of the `all_topics` list built at
`analyze_topics.py:209-219`. -/
structure TopicInstance where
  topic : String
  article : Article
  depth : ℚ
deriving DecidableEq, Repr

/-- The inner loop of `analyze_topics.py:211-219`: one record per label of
`main_topics`, skipping falsy (empty) labels. -/
def articleTopicsLoop (a : Article) : List String → List TopicInstance
  | [] => []
  | t :: ts =>
    if t = "" then articleTopicsLoop a ts
    else { topic := t, article := a, depth := depthLookup a.discussion_depth t } :: articleTopicsLoop a ts

/-- The full `all_topics` list (`analyze_topics.py:209-219`): article order,
then topic order within each article. -/
def allTopics (articles : List Article) : List TopicInstance :=
  articles.flatMap (fun a => articleTopicsLoop a a.main_topics)

/-- The per-article record appended to a cluster's `articles` list
(`analyze_topics.py:300-309` and `355-364`). -/
structure ArticleSnapshot where
  title : String
  link : String
  source : String
  summary : String
  content : String
  depth : ℚ
  published : String
  category : String
deriving DecidableEq, Repr

/-- Build the snapshot dict of `analyze_topics.py:300-309` from a topic
instance. -/
def mkSnapshot (ti : TopicInstance) : ArticleSnapshot :=
  { title := ti.article.title
    link := ti.article.link
    source := ti.article.source
    summary := ti.article.summary
    content := ti.article.content
    depth := ti.depth
    published := ti.article.published
    category := ti.article.category }

/-- One proposed group of the external clustering response
(`analyze_topics.py:286-288`); `category` holds the `.get('category',
'行业动态')` default when the key is missing. -/
structure RawCluster where
  canonical_name : String
  merged_topics : List String
  category : String
deriving DecidableEq, Repr

/-- A finished topic cluster (`analyze_topics.py:316-322` / `369-375`). -/
structure TopicCluster where
  canonical_name : String
  category : String
  articles : List ArticleSnapshot
  total_mentions : ℕ
  avg_depth : ℚ
deriving DecidableEq, Repr

/-- The inner scan of `analyze_topics.py:294-312` for one proposed group:
walk `all_topics`, skip instances whose article link is globally assigned,
collect matching instances, and extend the assigned set. Returns
`(cluster_articles, depths, assigned_articles)`. -/
def assignGroup (merged : List String) : List TopicInstance → List String →
    List ArticleSnapshot × List ℚ × List String
  | [], assigned => ([], [], assigned)
  | ti :: rest, assigned =>
    if ti.article.link ∈ assigned then assignGroup merged rest assigned
    else if ti.topic ∈ merged then
      let r := assignGroup merged rest (ti.article.link :: assigned)
      (mkSnapshot ti :: r.1, ti.depth :: r.2.1, r.2.2)
    else assignGroup merged rest assigned

/-- The outer loop of `analyze_topics.py:286-322`: groups processed in the
given order against the shared `assigned_articles` set; a group is emitted
only when it received at least one article. -/
def assignGroups (allT : List TopicInstance) : List RawCluster → List String → List TopicCluster
  | [], _ => []
  | g :: gs, assigned =>
    let r := assignGroup g.merged_topics allT assigned
    if r.1.isEmpty then assignGroups allT gs r.2.2
    else
      { canonical_name := g.canonical_name
        category := g.category
        articles := r.1
        total_mentions := r.1.length
        avg_depth := if r.2.1.isEmpty then 1/2 else r.2.1.sum / (r.2.1.length : ℚ) }
      :: assignGroups allT gs r.2.2

/-- One value of the fallback path's `clusters` dict before finalisation
(`analyze_topics.py:348-365`). -/
structure FallbackEntry where
  canonical_name : String
  category : String
  articles : List ArticleSnapshot
  depths : List ℚ
deriving DecidableEq, Repr

/-- One fallback-dict update (`analyze_topics.py:347-365`): create the
entry for the instance's topic if absent (Python dicts keep insertion
order, so a new entry goes to the end), then append the snapshot and depth
to it. -/
def addToCluster : List FallbackEntry → TopicInstance → List FallbackEntry
  | [], ti => [{ canonical_name := ti.topic
                 category := ti.article.category
                 articles := [mkSnapshot ti]
                 depths := [ti.depth] }]
  | c :: cs, ti =>
    if c.canonical_name = ti.topic then
      { c with articles := c.articles ++ [mkSnapshot ti], depths := c.depths ++ [ti.depth] } :: cs
    else c :: addToCluster cs ti

/-- The fallback loop of `analyze_topics.py:336-365` over `all_topics`,
threading `(clusters, assigned_articles)`; only membership of the
`assigned_articles` dict is ever read, so it is modelled as the list of
assigned links. -/
def fallbackFold : List TopicInstance → List FallbackEntry × List String →
    List FallbackEntry × List String
  | [], acc => acc
  | ti :: rest, acc =>
    if ti.article.link ∈ acc.2 then fallbackFold rest acc
    else fallbackFold rest (addToCluster acc.1 ti, ti.article.link :: acc.2)

/-- Finalisation of one fallback entry (`analyze_topics.py:367-375`). -/
def finalizeEntry (c : FallbackEntry) : TopicCluster :=
  { canonical_name := c.canonical_name
    category := c.category
    articles := c.articles
    total_mentions := c.articles.length
    avg_depth := if c.depths.isEmpty then 1/2 else c.depths.sum / (c.depths.length : ℚ) }

/-- The whole degraded fallback path (`analyze_topics.py:333-377`). -/
def fallbackClusters (allT : List TopicInstance) : List TopicCluster :=
  ((fallbackFold allT ([], [])).1).map finalizeEntry

/-- `cluster_topics` (`analyze_topics.py:196-377`) with the external
clustering call made explicit, plus a flag recording whether the external
service was consulted. `ext` is the outcome of `call_zhipu_ai` plus JSON
parsing: `.ok raw` is a parsed response, `.error` is a raised exception or
unparsable output (both land in the same `except` block at line 327). With
no topic instances the function returns `[]` at line 221-223 before the
service is ever invoked. -/
def cluster_topicsRun (articles : List Article) (ext : Except String (List RawCluster)) :
    List TopicCluster × Bool :=
  let allT := allTopics articles
  if allT.isEmpty then ([], false)
  else
    match ext with
    | .ok raw => (assignGroups allT raw [], true)
    | .error _ => (fallbackClusters allT, true)

/-- The cluster list returned by `cluster_topics`. -/
def cluster_topics (articles : List Article) (ext : Except String (List RawCluster)) :
    List TopicCluster :=
  (cluster_topicsRun articles ext).1

/-- One entry of `config/categories.json`'s `categories` array as read by
`calculate_heat.py:58-61`. -/
structure CategoryEntry where
  name : String
  priority_weight : ℚ
deriving DecidableEq, Repr

/-- The linear scan of `calculate_heat.py:57-61`: first exact name match
wins, default weight `0.5`. -/
def categoryWeightLoop : List CategoryEntry → String → ℚ
  | [], _ => 1/2
  | cat :: cats, c => if cat.name = c then cat.priority_weight else categoryWeightLoop cats c

/-- `mention_score` (`calculate_heat.py:46-47`): linear ramp capped at 60
from 10 mentions. -/
def mention_score (mention_count : ℕ) : ℚ :=
  min ((mention_count : ℚ) / 10 * 60) 60

/-- Python's `round(x, 1)`: round to one decimal, ties to even (Python's
float `round` is round-half-to-even; exact `ℚ` arithmetic stands in for the
binary floats). First the integer rounding of `y` with ties to even. -/
def round_half_even (y : ℚ) : ℤ :=
  let f := ⌊y⌋
  if y - f < 1/2 then f
  else if 1/2 < y - f then f + 1
  else if 2 ∣ f then f else f + 1

/-- `round(x, 1)` of `calculate_heat.py:68`. -/
def round1 (x : ℚ) : ℚ := (round_half_even (x * 10) : ℚ) / 10

/-- `calculate_heat_score` (`calculate_heat.py:29-68`). -/
def calculate_heat_score (cats : List CategoryEntry) (tc : TopicCluster) : ℚ :=
  let m := mention_score tc.total_mentions
  let depth_score := tc.avg_depth * 30
  let category_weight := categoryWeightLoop cats tc.category
  let category_bonus := category_weight * 10
  round1 (m + depth_score + category_bonus)

/-- A cluster dict after `calculate_all_heat_scores` merged in
`heat_score` (`calculate_heat.py:88-91`). -/
structure ScoredTopic where
  cluster : TopicCluster
  heat_score : ℚ
deriving DecidableEq, Repr

/-- `calculate_all_heat_scores` (`calculate_heat.py:71-102`): score every
cluster, then `list.sort(key=heat_score, reverse=True)` — a stable sort
putting `a` before `b` when `b.heat_score ≤ a.heat_score`. -/
def calculate_all_heat_scores (cats : List CategoryEntry) (l : List TopicCluster) :
    List ScoredTopic :=
  (l.map (fun c => { cluster := c, heat_score := calculate_heat_score cats c })).mergeSort
    (fun a b => decide (b.heat_score ≤ a.heat_score))

/-- A scored topic after `save_heat_scores` added its 1-based `rank`
(`calculate_heat.py:130-131`). -/
structure RankedTopic where
  cluster : TopicCluster
  heat_score : ℚ
  rank : ℕ
deriving DecidableEq, Repr

/-- The rank assignment of `calculate_heat.py:130-131`:
`enumerate(scored_topics, 1)`. -/
def assignRanks (l : List ScoredTopic) : List RankedTopic :=
  l.enum.map (fun p => { cluster := p.2.cluster, heat_score := p.2.heat_score, rank := p.1 + 1 })

/-- The configuration read by `call_zhipu_ai` (`analyze_topics.py:45-49`);
`none` models a missing `zhipu_api_key` key, `some ""` an empty one — both
falsy in `if not api_key`. -/
structure PipelineConfig where
  zhipu_api_key : Option String
deriving DecidableEq, Repr

/-- `call_zhipu_ai` (`analyze_topics.py:34-67`): raise `ValueError` when
the key is falsy, otherwise forward the outcome of the network call
(`service` is the call's result: `.ok` a response string, `.error` a
raised exception, re-raised by the source's `except` block at line 65-67). -/
def call_zhipu_ai (config : PipelineConfig) (service : Except String String) :
    Except String String :=
  match config.zhipu_api_key with
  | none => .error "ValueError: zhipu api key not configured"
  | some k =>
    if k = "" then .error "ValueError: zhipu api key not configured" else service

/-- The dict returned by `extract_topics_from_article`
(`analyze_topics.py:70-152`), missing keys already defaulted. -/
structure ExtractResult where
  main_topics : List String
  category : String
  keywords : List String
  discussion_depth : List (String × ℚ)
deriving DecidableEq, Repr

/-- `extract_topics_from_article` (`analyze_topics.py:118-152`): any
exception out of `call_zhipu_ai` or the response parsing (fence stripping,
`json.loads` and key-defaulting, abstracted as `parse`) is caught and
converted to the empty-topics result with the configured default
category. -/
def extract_topics_from_article (config : PipelineConfig) (defaultCategory : String)
    (service : Except String String) (parse : String → Except String ExtractResult) :
    ExtractResult :=
  match call_zhipu_ai config service with
  | .error _ => { main_topics := [], category := defaultCategory, keywords := [],
                  discussion_depth := [] }
  | .ok response =>
    match parse response with
    | .error _ => { main_topics := [], category := defaultCategory, keywords := [],
                    discussion_depth := [] }
    | .ok result => result

/-! ### Lemmas about the externally-grouped assignment path -/

theorem assignGroup_depths (merged : List String) :
    ∀ (l : List TopicInstance) (assigned : List String),
    (assignGroup merged l assigned).2.1 = (assignGroup merged l assigned).1.map (·.depth)
  | [], _ => rfl
  | ti :: rest, assigned => by
    by_cases h1 : ti.article.link ∈ assigned
    · simpa only [assignGroup, if_pos h1] using assignGroup_depths merged rest assigned
    · by_cases h2 : ti.topic ∈ merged
      · simp only [assignGroup, if_neg h1, if_pos h2, List.map_cons]
        rw [← assignGroup_depths merged rest (ti.article.link :: assigned)]
        rfl
      · simpa only [assignGroup, if_neg h1, if_neg h2]
          using assignGroup_depths merged rest assigned

theorem assignGroup_links (merged : List String) :
    ∀ (l : List TopicInstance) (assigned : List String),
    ((assignGroup merged l assigned).1.map (·.link)).Nodup
    ∧ (∀ lk ∈ (assignGroup merged l assigned).1.map (·.link), lk ∉ assigned)
    ∧ (∀ lk, lk ∈ (assignGroup merged l assigned).2.2 ↔
        lk ∈ assigned ∨ lk ∈ (assignGroup merged l assigned).1.map (·.link))
  | [], assigned => by simp [assignGroup]
  | ti :: rest, assigned => by
    by_cases h1 : ti.article.link ∈ assigned
    · simpa only [assignGroup, if_pos h1] using assignGroup_links merged rest assigned
    · by_cases h2 : ti.topic ∈ merged
      · have ih := assignGroup_links merged rest (ti.article.link :: assigned)
        simp only [assignGroup, if_neg h1, if_pos h2, List.map_cons, List.nodup_cons,
          List.mem_cons]
        obtain ⟨ihnd, ihfresh, ihiff⟩ := ih
        refine ⟨⟨?_, ihnd⟩, ?_, ?_⟩
        · intro hmem
          exact (ihfresh _ hmem) (List.mem_cons_self _ _)
        · rintro lk (rfl | hmem)
          · exact h1
          · intro hlk
            exact ihfresh _ hmem (List.mem_cons_of_mem _ hlk)
        · intro lk
          rw [ihiff lk, List.mem_cons]
          constructor
          · rintro ((rfl | h) | h) <;> tauto
          · rintro (h | (rfl | h)) <;> tauto
      · simpa only [assignGroup, if_neg h1, if_neg h2]
          using assignGroup_links merged rest assigned

theorem assignGroup_links_sub (merged : List String) :
    ∀ (l : List TopicInstance) (assigned : List String),
    ∀ lk ∈ (assignGroup merged l assigned).1.map (·.link), lk ∈ l.map (·.article.link)
  | [], assigned => by simp [assignGroup]
  | ti :: rest, assigned => by
    by_cases h1 : ti.article.link ∈ assigned
    · simp only [assignGroup, if_pos h1, List.map_cons, List.mem_cons]
      intro lk hlk
      exact Or.inr (assignGroup_links_sub merged rest assigned lk hlk)
    · by_cases h2 : ti.topic ∈ merged
      · simp only [assignGroup, if_neg h1, if_pos h2, List.map_cons, List.mem_cons]
        rintro lk (rfl | hlk)
        · exact Or.inl rfl
        · exact Or.inr
            (assignGroup_links_sub merged rest (ti.article.link :: assigned) lk hlk)
      · simp only [assignGroup, if_neg h1, if_neg h2, List.map_cons, List.mem_cons]
        intro lk hlk
        exact Or.inr (assignGroup_links_sub merged rest assigned lk hlk)

theorem assignGroups_links (allT : List TopicInstance) :
    ∀ (raw : List RawCluster) (assigned : List String),
    ((((assignGroups allT raw assigned).flatMap (·.articles)).map (·.link)).Nodup)
    ∧ (∀ lk ∈ ((assignGroups allT raw assigned).flatMap (·.articles)).map (·.link),
        lk ∉ assigned)
  | [], assigned => by simp [assignGroups]
  | g :: gs, assigned => by
    obtain ⟨gnd, gfresh, giff⟩ := assignGroup_links g.merged_topics allT assigned
    set r := assignGroup g.merged_topics allT assigned with hr
    obtain ⟨ihnd, ihfresh⟩ := assignGroups_links allT gs r.2.2
    have hsub : assigned ⊆ r.2.2 := fun lk hlk => (giff lk).mpr (Or.inl hlk)
    by_cases hemp : r.1.isEmpty
    · simp only [assignGroups, ← hr, if_pos hemp]
      exact ⟨ihnd, fun lk hlk hmem => ihfresh lk hlk (hsub hmem)⟩
    · simp only [assignGroups, ← hr, if_neg hemp, List.flatMap_cons, List.map_append,
        List.nodup_append]
      refine ⟨⟨gnd, ihnd, ?_⟩, ?_⟩
      · intro lk hlk hlk2
        exact ihfresh lk hlk2 ((giff lk).mpr (Or.inr hlk))
      · intro lk hlk
        rcases List.mem_append.mp hlk with h | h
        · exact gfresh lk h
        · exact fun hmem => ihfresh lk h (hsub hmem)

theorem assignGroups_mem (allT : List TopicInstance) :
    ∀ (raw : List RawCluster) (assigned : List String),
    ∀ c ∈ assignGroups allT raw assigned,
      c.articles ≠ []
      ∧ c.total_mentions = c.articles.length
      ∧ c.avg_depth = (c.articles.map (·.depth)).sum / (c.articles.length : ℚ)
  | [], assigned => by simp [assignGroups]
  | g :: gs, assigned => by
    set r := assignGroup g.merged_topics allT assigned with hr
    by_cases hemp : r.1.isEmpty
    · simp only [assignGroups, ← hr, if_pos hemp]
      exact assignGroups_mem allT gs r.2.2
    · simp only [assignGroups, ← hr, if_neg hemp]
      intro c hc
      rcases List.mem_cons.mp hc with rfl | hc
      · refine ⟨by simpa [List.isEmpty_iff] using hemp, rfl, ?_⟩
        have hd : r.2.1 = r.1.map (·.depth) := assignGroup_depths g.merged_topics allT assigned
        have h1 : r.1 ≠ [] := by simpa [List.isEmpty_iff] using hemp
        have h2 : (r.1.map (·.depth)).isEmpty = false := by
          cases hx : r.1 with
          | nil => exact absurd hx h1
          | cons a as => simp [hx]
        simp only [hd, h2, if_false, Bool.false_eq_true, List.length_map]
      · exact assignGroups_mem allT gs r.2.2 c hc

theorem assignGroups_names_sublist (allT : List TopicInstance) :
    ∀ (raw : List RawCluster) (assigned : List String),
    List.Sublist ((assignGroups allT raw assigned).map (·.canonical_name))
      (raw.map (·.canonical_name))
  | [], assigned => by simp [assignGroups]
  | g :: gs, assigned => by
    set r := assignGroup g.merged_topics allT assigned with hr
    by_cases hemp : r.1.isEmpty
    · simp only [assignGroups, ← hr, if_pos hemp, List.map_cons]
      exact (assignGroups_names_sublist allT gs r.2.2).cons _
    · simp only [assignGroups, ← hr, if_neg hemp, List.map_cons]
      exact (assignGroups_names_sublist allT gs r.2.2).cons₂ _

theorem assignGroups_links_sub (allT : List TopicInstance) :
    ∀ (raw : List RawCluster) (assigned : List String),
    ∀ lk ∈ ((assignGroups allT raw assigned).flatMap (·.articles)).map (·.link),
      lk ∈ allT.map (·.article.link)
  | [], assigned => by simp [assignGroups]
  | g :: gs, assigned => by
    set r := assignGroup g.merged_topics allT assigned with hr
    by_cases hemp : r.1.isEmpty
    · simp only [assignGroups, ← hr, if_pos hemp]
      exact assignGroups_links_sub allT gs r.2.2
    · simp only [assignGroups, ← hr, if_neg hemp, List.flatMap_cons, List.map_append]
      intro lk hlk
      rcases List.mem_append.mp hlk with h | h
      · exact assignGroup_links_sub g.merged_topics allT assigned lk h
      · exact assignGroups_links_sub allT gs r.2.2 lk h

/-! ### Lemmas about the degraded fallback path -/

/-- All article links stored across a list of fallback entries, in order. -/
def entryLinks (cs : List FallbackEntry) : List String :=
  (cs.flatMap (·.articles)).map (·.link)

theorem addToCluster_links_perm :
    ∀ (cs : List FallbackEntry) (ti : TopicInstance),
    List.Perm (entryLinks (addToCluster cs ti)) (entryLinks cs ++ [ti.article.link])
  | [], ti => by simp [entryLinks, addToCluster, mkSnapshot]
  | c :: cs, ti => by
    by_cases h : c.canonical_name = ti.topic
    · simp only [addToCluster, if_pos h, entryLinks, List.flatMap_cons, List.map_append]
      have hsnap : ([mkSnapshot ti].map (·.link)) = [ti.article.link] := by
        simp [mkSnapshot]
      rw [hsnap, List.append_assoc, List.append_assoc]
      exact List.Perm.append_left _ List.perm_append_comm
    · simp only [addToCluster, if_neg h, entryLinks, List.flatMap_cons, List.map_append]
      have ih : List.Perm (entryLinks (addToCluster cs ti))
          (entryLinks cs ++ [ti.article.link]) := addToCluster_links_perm cs ti
      have step : List.Perm (c.articles.map (·.link) ++ entryLinks (addToCluster cs ti))
          (c.articles.map (·.link) ++ (entryLinks cs ++ [ti.article.link])) :=
        List.Perm.append_left _ ih
      rw [← List.append_assoc] at step
      exact step

theorem fallbackFold_links :
    ∀ (l : List TopicInstance) (cs : List FallbackEntry) (assigned : List String),
    (entryLinks cs).Nodup → (∀ lk ∈ entryLinks cs, lk ∈ assigned) →
    (entryLinks (fallbackFold l (cs, assigned)).1).Nodup
    ∧ (∀ lk ∈ entryLinks (fallbackFold l (cs, assigned)).1,
        lk ∈ (fallbackFold l (cs, assigned)).2)
  | [], cs, assigned => by
    intro hnd hsub
    simpa [fallbackFold] using ⟨hnd, hsub⟩
  | ti :: rest, cs, assigned => by
    intro hnd hsub
    by_cases h : ti.article.link ∈ assigned
    · simpa only [fallbackFold, if_pos h] using fallbackFold_links rest cs assigned hnd hsub
    · simp only [fallbackFold, if_neg h]
      have hperm := addToCluster_links_perm cs ti
      have hnotin : ti.article.link ∉ entryLinks cs := fun hmem => h (hsub _ hmem)
      have hnd' : (entryLinks (addToCluster cs ti)).Nodup := by
        refine hperm.nodup_iff.mpr ?_
        simpa [List.nodup_append, hnotin] using hnd
      have hsub' : ∀ lk ∈ entryLinks (addToCluster cs ti), lk ∈ ti.article.link :: assigned := by
        intro lk hlk
        rcases List.mem_append.mp (hperm.mem_iff.mp hlk) with hm | hm
        · exact List.mem_cons_of_mem _ (hsub _ hm)
        · simp only [List.mem_singleton] at hm
          simp [hm]
      exact fallbackFold_links rest (addToCluster cs ti) (ti.article.link :: assigned) hnd' hsub'

theorem fallbackFold_links_sub :
    ∀ (l : List TopicInstance) (cs : List FallbackEntry) (assigned : List String),
    ∀ lk ∈ entryLinks (fallbackFold l (cs, assigned)).1,
      lk ∈ entryLinks cs ∨ lk ∈ l.map (·.article.link)
  | [], cs, assigned => by simp [fallbackFold]
  | ti :: rest, cs, assigned => by
    by_cases h : ti.article.link ∈ assigned
    · simp only [fallbackFold, if_pos h, List.map_cons, List.mem_cons]
      intro lk hlk
      rcases fallbackFold_links_sub rest cs assigned lk hlk with hm | hm
      · exact Or.inl hm
      · exact Or.inr (Or.inr hm)
    · simp only [fallbackFold, if_neg h, List.map_cons, List.mem_cons]
      intro lk hlk
      rcases fallbackFold_links_sub rest (addToCluster cs ti) (ti.article.link :: assigned)
          lk hlk with hm | hm
      · rcases List.mem_append.mp ((addToCluster_links_perm cs ti).mem_iff.mp hm) with h2 | h2
        · exact Or.inl h2
        · simp only [List.mem_singleton] at h2
          exact Or.inr (Or.inl h2)
      · exact Or.inr (Or.inr hm)

/-- The subsequence of a topic-instance list keeping, per article link, only
the first instance (`seen` = links already claimed): exactly the instances
the fallback loop of `analyze_topics.py:336-345` does not skip. -/
def firstPerArticle : List TopicInstance → List String → List TopicInstance
  | [], _ => []
  | ti :: rest, seen =>
    if ti.article.link ∈ seen then firstPerArticle rest seen
    else ti :: firstPerArticle rest (ti.article.link :: seen)

/-- Order-preserving deduplication keeping first occurrences and skipping
members of `seen`: the order in which the fallback dict creates its keys. -/
def dedupF : List String → List String → List String
  | [], _ => []
  | x :: xs, seen => if x ∈ seen then dedupF xs seen else x :: dedupF xs (x :: seen)

theorem fallbackFold_eq_foldl :
    ∀ (l : List TopicInstance) (cs : List FallbackEntry) (seen : List String),
    (fallbackFold l (cs, seen)).1 = (firstPerArticle l seen).foldl addToCluster cs
  | [], _, _ => rfl
  | ti :: rest, cs, seen => by
    by_cases h : ti.article.link ∈ seen
    · simp only [fallbackFold, if_pos h, firstPerArticle]
      exact fallbackFold_eq_foldl rest cs seen
    · simp only [fallbackFold, if_neg h, firstPerArticle, List.foldl_cons]
      exact fallbackFold_eq_foldl rest (addToCluster cs ti) (ti.article.link :: seen)

theorem addToCluster_names (ti : TopicInstance) :
    ∀ (cs : List FallbackEntry),
    (addToCluster cs ti).map (·.canonical_name)
      = if ti.topic ∈ cs.map (·.canonical_name) then cs.map (·.canonical_name)
        else cs.map (·.canonical_name) ++ [ti.topic]
  | [] => by simp [addToCluster]
  | c :: cs => by
    by_cases h : c.canonical_name = ti.topic
    · simp only [addToCluster, if_pos h, List.map_cons]
      rw [if_pos]
      exact List.mem_cons.mpr (Or.inl h.symm)
    · simp only [addToCluster, if_neg h, List.map_cons, addToCluster_names ti cs]
      have hne : ¬ ti.topic = c.canonical_name := fun hh => h hh.symm
      by_cases h2 : ti.topic ∈ cs.map (·.canonical_name)
      · rw [if_pos h2, if_pos (List.mem_cons.mpr (Or.inr h2))]
      · rw [if_neg h2, if_neg (by simp [List.mem_cons, hne, h2]), List.cons_append]

theorem dedupF_congr :
    ∀ (xs s s' : List String), (∀ x, x ∈ s ↔ x ∈ s') → dedupF xs s = dedupF xs s'
  | [], _, _, _ => rfl
  | x :: xs, s, s', hiff => by
    by_cases h : x ∈ s
    · rw [dedupF, dedupF, if_pos h, if_pos ((hiff x).mp h)]
      exact dedupF_congr xs s s' hiff
    · rw [dedupF, dedupF, if_neg h, if_neg (fun hh => h ((hiff x).mpr hh))]
      refine congrArg _ (dedupF_congr xs (x :: s) (x :: s') ?_)
      intro y
      simp only [List.mem_cons]
      exact or_congr Iff.rfl (hiff y)

theorem foldl_addToCluster_names :
    ∀ (l : List TopicInstance) (cs : List FallbackEntry),
    (l.foldl addToCluster cs).map (·.canonical_name)
      = cs.map (·.canonical_name) ++ dedupF (l.map (·.topic)) (cs.map (·.canonical_name))
  | [], cs => by simp [dedupF]
  | ti :: l, cs => by
    simp only [List.foldl_cons, List.map_cons, dedupF]
    by_cases h : ti.topic ∈ cs.map (·.canonical_name)
    · rw [if_pos h, foldl_addToCluster_names l (addToCluster cs ti), addToCluster_names ti cs,
        if_pos h]
    · rw [if_neg h, foldl_addToCluster_names l (addToCluster cs ti), addToCluster_names ti cs,
        if_neg h]
      rw [dedupF_congr (l.map (·.topic)) (cs.map (·.canonical_name) ++ [ti.topic])
        (ti.topic :: cs.map (·.canonical_name)) (by intro x; simp [List.mem_cons, or_comm])]
      simp [List.append_assoc]

/-- The articles stored under the first entry named `n`, `[]` if none. -/
def entryArticlesAt : List FallbackEntry → String → List ArticleSnapshot
  | [], _ => []
  | c :: cs, n => if c.canonical_name = n then c.articles else entryArticlesAt cs n

theorem addToCluster_articlesAt (ti : TopicInstance) (n : String) :
    ∀ (cs : List FallbackEntry),
    entryArticlesAt (addToCluster cs ti) n
      = if n = ti.topic then entryArticlesAt cs n ++ [mkSnapshot ti] else entryArticlesAt cs n
  | [] => by
    by_cases h : n = ti.topic
    · subst h
      simp [addToCluster, entryArticlesAt]
    · rw [if_neg h]
      simp only [addToCluster, entryArticlesAt]
      rw [if_neg (fun hh => h hh.symm)]
  | c :: cs => by
    by_cases h1 : c.canonical_name = ti.topic
    · simp only [addToCluster, if_pos h1, entryArticlesAt]
      by_cases h2 : c.canonical_name = n
      · rw [if_pos h2, if_pos h2, if_pos (h2.symm.trans h1)]
      · rw [if_neg h2, if_neg h2, if_neg (fun hh : n = ti.topic => h2 (h1.trans hh.symm))]
    · simp only [addToCluster, if_neg h1, entryArticlesAt]
      by_cases h2 : c.canonical_name = n
      · rw [if_pos h2, if_pos h2, if_neg (fun hh : n = ti.topic => h1 (h2.trans hh))]
      · rw [if_neg h2, if_neg h2, addToCluster_articlesAt ti n cs]

theorem foldl_addToCluster_articlesAt (n : String) :
    ∀ (l : List TopicInstance) (cs : List FallbackEntry),
    entryArticlesAt (l.foldl addToCluster cs) n
      = entryArticlesAt cs n ++ ((l.filter (fun ti => ti.topic = n)).map mkSnapshot)
  | [], cs => by simp
  | ti :: l, cs => by
    simp only [List.foldl_cons]
    rw [foldl_addToCluster_articlesAt n l (addToCluster cs ti), addToCluster_articlesAt ti n cs]
    by_cases h : ti.topic = n
    · rw [if_pos h.symm, List.filter_cons_of_pos (by simp [h]), List.map_cons,
        List.append_assoc, List.singleton_append]
    · rw [if_neg (fun hh => h hh.symm), List.filter_cons_of_neg (by simp [h])]

theorem dedupF_spec :
    ∀ (xs seen : List String), (∀ x ∈ dedupF xs seen, x ∉ seen) ∧ (dedupF xs seen).Nodup
  | [], seen => by simp [dedupF]
  | x :: xs, seen => by
    by_cases h : x ∈ seen
    · rw [dedupF, if_pos h]
      exact dedupF_spec xs seen
    · rw [dedupF, if_neg h]
      obtain ⟨hfresh, hnd⟩ := dedupF_spec xs (x :: seen)
      refine ⟨?_, ?_⟩
      · intro y hy
        rcases List.mem_cons.mp hy with rfl | hy
        · exact h
        · exact fun hmem => hfresh y hy (List.mem_cons_of_mem _ hmem)
      · refine List.nodup_cons.mpr ⟨?_, hnd⟩
        intro hmem
        exact hfresh x hmem (List.mem_cons_self _ _)

theorem entryArticlesAt_of_mem :
    ∀ (cs : List FallbackEntry) (c : FallbackEntry),
    (cs.map (·.canonical_name)).Nodup → c ∈ cs →
    entryArticlesAt cs c.canonical_name = c.articles
  | [], c => by simp
  | d :: cs, c => by
    intro hnd hc
    simp only [List.map_cons, List.nodup_cons] at hnd
    rcases List.mem_cons.mp hc with rfl | hc
    · simp [entryArticlesAt]
    · have hne : d.canonical_name ≠ c.canonical_name := by
        intro hh
        exact hnd.1 (hh ▸ List.mem_map_of_mem (·.canonical_name) hc)
      rw [entryArticlesAt, if_neg hne]
      exact entryArticlesAt_of_mem cs c hnd.2 hc

theorem finalize_links :
    ∀ (cs : List FallbackEntry),
    (((cs.map finalizeEntry).flatMap (·.articles)).map (·.link)) = entryLinks cs
  | [] => rfl
  | c :: cs => by
    have ih := finalize_links cs
    simp only [entryLinks, List.map_cons, List.flatMap_cons, List.map_append,
      finalizeEntry] at ih ⊢
    rw [ih]

theorem cluster_topics_error_eq (articles : List Article) (e : String) :
    cluster_topics articles (Except.error e) = fallbackClusters (allTopics articles) := by
  unfold cluster_topics cluster_topicsRun
  by_cases h : (allTopics articles).isEmpty
  · have h0 : allTopics articles = [] := List.isEmpty_iff.mp h
    simp [h0, fallbackClusters, fallbackFold]
  · simp [h]

theorem fallbackClusters_names (allT : List TopicInstance) :
    (fallbackClusters allT).map (·.canonical_name)
      = dedupF ((firstPerArticle allT []).map (·.topic)) [] := by
  unfold fallbackClusters
  rw [List.map_map]
  have hcomp : ((·.canonical_name) ∘ finalizeEntry : FallbackEntry → String)
      = (·.canonical_name) := rfl
  rw [hcomp, fallbackFold_eq_foldl, foldl_addToCluster_names]
  simp

/-- C1. Exclusivity: for every set of topic instances the grouped path (any
externally proposed group list) and the degraded fallback path each emit
clusters whose article links, collected across all clusters, are pairwise
distinct — no link is duplicated within one cluster or across two clusters;
consequently `cluster_topics` guarantees this for any input articles and
any outcome of the external grouping call. -/
theorem article_exclusivity :
    (∀ (allT : List TopicInstance) (raw : List RawCluster),
      (((assignGroups allT raw []).flatMap (·.articles)).map (·.link)).Nodup)
    ∧ (∀ (allT : List TopicInstance),
      (((fallbackClusters allT).flatMap (·.articles)).map (·.link)).Nodup)
    ∧ (∀ (articles : List Article) (ext : Except String (List RawCluster)),
      (((cluster_topics articles ext).flatMap (·.articles)).map (·.link)).Nodup) := by
  have hgroup : ∀ (allT : List TopicInstance) (raw : List RawCluster),
      (((assignGroups allT raw []).flatMap (·.articles)).map (·.link)).Nodup :=
    fun allT raw => (assignGroups_links allT raw []).1
  have hfall : ∀ (allT : List TopicInstance),
      (((fallbackClusters allT).flatMap (·.articles)).map (·.link)).Nodup := by
    intro allT
    unfold fallbackClusters
    rw [finalize_links]
    exact (fallbackFold_links allT [] [] (by simp [entryLinks]) (by simp [entryLinks])).1
  refine ⟨hgroup, hfall, ?_⟩
  intro articles ext
  unfold cluster_topics cluster_topicsRun
  by_cases h : (allTopics articles).isEmpty
  · simp [h]
  · cases ext with
    | ok raw =>
      simp only [if_neg h]
      exact hgroup (allTopics articles) raw
    | error e =>
      simp only [if_neg h]
      exact hfall (allTopics articles)

/-- C5. Clustering-failure recovery: whenever the external clustering call
raises or its output cannot be parsed (both modelled as `Except.error`,
exactly the cases landing in the source's `except` block), `cluster_topics`
returns the degraded fallback clustering; being a total function of the
error outcome, the error never escapes the clustering stage. -/
theorem clustering_failure_recovery (articles : List Article) (e : String) :
    cluster_topics articles (Except.error e) = fallbackClusters (allTopics articles) :=
  cluster_topics_error_eq articles e

/-- C10. If the articles contribute no non-empty topic label, `cluster_topics`
returns `[]` immediately: the result is `([], false)` for every conceivable
outcome `ext` of the external service, the `false` flag recording that the
service was never consulted and neither assignment path was entered. -/
theorem no_topics_short_circuit (articles : List Article)
    (ext : Except String (List RawCluster)) (h : allTopics articles = []) :
    cluster_topicsRun articles ext = ([], false) := by
  unfold cluster_topicsRun
  simp [h]

/-- An article whose `main_topics` is empty, used to exercise the
short-circuit path. -/
def emptyTopicsArticle : Article :=
  { title := "T", link := "lt", source := "s", summary := "", content := "",
    published := "", category := "c", main_topics := [], discussion_depth := [] }

/-- Witness for `no_topics_short_circuit` at a concrete input. -/
theorem no_topics_short_circuit_witness :
    allTopics [emptyTopicsArticle] = []
    ∧ cluster_topicsRun [emptyTopicsArticle]
        (Except.ok [{ canonical_name := "G", merged_topics := ["X"], category := "c" }])
        = ([], false) :=
  ⟨rfl, no_topics_short_circuit _ _ rfl⟩

/-- C3 (amended). Fallback clustering shape: when the external clustering
call raises, the emitted clusters are one per distinct topic label carried
by some article's *first-encountered* topic instance (in extraction order:
article order, then topic order within article; labels occurring only on
instances of already-assigned articles produce no cluster), and each
cluster contains exactly the articles whose first-encountered instance
carried that label, in order. -/
theorem fallback_first_topic_clusters (articles : List Article) (e : String) :
    ((cluster_topics articles (Except.error e)).map (·.canonical_name)
       = dedupF ((firstPerArticle (allTopics articles) []).map (·.topic)) [])
    ∧ ∀ c ∈ cluster_topics articles (Except.error e),
        c.articles = ((firstPerArticle (allTopics articles) []).filter
          (fun ti => ti.topic = c.canonical_name)).map mkSnapshot := by
  rw [cluster_topics_error_eq]
  refine ⟨fallbackClusters_names (allTopics articles), ?_⟩
  intro c hc
  unfold fallbackClusters at hc
  rcases List.mem_map.mp hc with ⟨entry, hentry, rfl⟩
  have hnames : ((fallbackFold (allTopics articles) ([], [])).1.map
      (·.canonical_name)).Nodup := by
    rw [fallbackFold_eq_foldl, foldl_addToCluster_names]
    simpa using
      (dedupF_spec ((firstPerArticle (allTopics articles) []).map (·.topic)) []).2
  have harts : entryArticlesAt (fallbackFold (allTopics articles) ([], [])).1
      entry.canonical_name = entry.articles :=
    entryArticlesAt_of_mem _ entry hnames hentry
  have hchar : entryArticlesAt (fallbackFold (allTopics articles) ([], [])).1
      entry.canonical_name
      = ((firstPerArticle (allTopics articles) []).filter
          (fun ti => ti.topic = entry.canonical_name)).map mkSnapshot := by
    rw [fallbackFold_eq_foldl, foldl_addToCluster_articlesAt]
    simp [entryArticlesAt]
  have h1 : (finalizeEntry entry).articles = entry.articles := rfl
  have h2 : (finalizeEntry entry).canonical_name = entry.canonical_name := rfl
  rw [h1, h2]
  exact harts.symm.trans hchar

/-- An article carrying two topics, so that its second topic label yields no
fallback cluster. -/
def dupTopicArticle : Article :=
  { title := "D", link := "ld", source := "s", summary := "", content := "",
    published := "", category := "c", main_topics := ["X", "Y"],
    discussion_depth := [] }

/-- Counterexample to C3 as stated: label "Y" occurs among the input topic
instances, yet the fallback output has no cluster named "Y" — its only
article was already claimed by the cluster of its first label "X". So the
fallback does not emit one cluster per distinct label present in the input
instances. -/
theorem fallback_missing_label_counterexample :
    "Y" ∈ ((allTopics [dupTopicArticle]).map (·.topic))
    ∧ (cluster_topics [dupTopicArticle] (Except.error "boom")).map (·.canonical_name)
        = ["X"]
    ∧ ¬ ("Y" ∈ (["X"] : List String)) := by
  refine ⟨by decide, by decide, by decide⟩

/-- The single cluster the fallback path builds from `dupTopicArticle`. -/
def c3WitnessCluster : TopicCluster :=
  { canonical_name := "X", category := "c",
    articles := [{ title := "D", link := "ld", source := "s", summary := "",
                   content := "", depth := 1/2, published := "", category := "c" }],
    total_mentions := 1, avg_depth := 1/2 }

/-- Witness for `fallback_first_topic_clusters` at a concrete input. -/
theorem fallback_first_topic_clusters_witness :
    c3WitnessCluster ∈ cluster_topics [dupTopicArticle] (Except.error "boom")
    ∧ c3WitnessCluster.articles
        = ((firstPerArticle (allTopics [dupTopicArticle]) []).filter
            (fun ti => ti.topic = c3WitnessCluster.canonical_name)).map mkSnapshot := by
  have heq : cluster_topics [dupTopicArticle] (Except.error "boom") = [c3WitnessCluster] := by
    simp [cluster_topics, cluster_topicsRun, allTopics, dupTopicArticle, articleTopicsLoop,
      depthLookup, fallbackClusters, fallbackFold, addToCluster, finalizeEntry, mkSnapshot,
      c3WitnessCluster, List.find?]
  have hm : c3WitnessCluster ∈ cluster_topics [dupTopicArticle] (Except.error "boom") := by
    rw [heq]
    exact List.mem_singleton.mpr rfl
  exact ⟨hm, (fallback_first_topic_clusters [dupTopicArticle] "boom").2 _ hm⟩

/-! ### Topic-instance extraction -/

theorem articleTopicsLoop_eq (a : Article) :
    ∀ (l : List String),
    articleTopicsLoop a l
      = (l.filter (fun t => t ≠ "")).map
          (fun t => { topic := t, article := a, depth := depthLookup a.discussion_depth t })
  | [] => rfl
  | t :: ts => by
    by_cases h : t = ""
    · rw [articleTopicsLoop, if_pos h, List.filter_cons_of_neg (by simp [h])]
      exact articleTopicsLoop_eq a ts
    · rw [articleTopicsLoop, if_neg h, List.filter_cons_of_pos (by simp [h]), List.map_cons]
      rw [articleTopicsLoop_eq a ts]

theorem cluster_links_sub (articles : List Article) (ext : Except String (List RawCluster)) :
    ∀ lk ∈ ((cluster_topics articles ext).flatMap (·.articles)).map (·.link),
      lk ∈ (allTopics articles).map (·.article.link) := by
  unfold cluster_topics cluster_topicsRun
  by_cases h : (allTopics articles).isEmpty
  · simp [h]
  · cases ext with
    | ok raw =>
      simp only [if_neg h]
      exact assignGroups_links_sub (allTopics articles) raw []
    | error e =>
      simp only [if_neg h]
      show ∀ lk ∈ ((fallbackClusters (allTopics articles)).flatMap (·.articles)).map (·.link), _
      unfold fallbackClusters
      rw [finalize_links]
      intro lk hlk
      rcases fallbackFold_links_sub (allTopics articles) [] [] lk hlk with hm | hm
      · simp [entryLinks] at hm
      · exact hm

/-- C6. Topic-instance extraction: per article, one instance is produced
per non-empty label of `main_topics`, with depth `discussion_depth.get(label,
0.5)`; the depth default fires exactly when the label is missing from the
depth map; and an article whose `main_topics` is empty (and whose link no
other input article shares with a non-empty `main_topics`) contributes no
instance and its link appears in no emitted cluster. -/
theorem topic_instance_extraction :
    (∀ (a : Article), articleTopicsLoop a a.main_topics
        = (a.main_topics.filter (fun t => t ≠ "")).map
            (fun t => { topic := t, article := a, depth := depthLookup a.discussion_depth t }))
    ∧ (∀ (dd : List (String × ℚ)) (t : String),
        (∀ p ∈ dd, p.1 ≠ t) → depthLookup dd t = 1/2)
    ∧ (∀ (articles : List Article) (ext : Except String (List RawCluster)) (a : Article),
        a ∈ articles → (∀ b ∈ articles, b.link = a.link → b.main_topics = []) →
        a.link ∉ ((cluster_topics articles ext).flatMap (·.articles)).map (·.link)) := by
  refine ⟨fun a => articleTopicsLoop_eq a a.main_topics, ?_, ?_⟩
  · intro dd t h
    unfold depthLookup
    rw [List.find?_eq_none.mpr (by intro p hp; simpa using h p hp)]
  · intro articles ext a ha hb hmem
    have hsub := cluster_links_sub articles ext a.link hmem
    rcases List.mem_map.mp hsub with ⟨ti, hti, hlk⟩
    rcases List.mem_flatMap.mp hti with ⟨b, hbmem, htiB⟩
    have harticle : ti.article = b := by
      rw [articleTopicsLoop_eq] at htiB
      rcases List.mem_map.mp htiB with ⟨t, _, rfl⟩
      rfl
    have hempty : b.main_topics = [] := hb b hbmem (by rw [← harticle]; exact hlk)
    rw [hempty] at htiB
    exact absurd htiB (by simp [articleTopicsLoop])

/-- Witness for `topic_instance_extraction` at concrete inputs. -/
theorem topic_instance_extraction_witness :
    (articleTopicsLoop dupTopicArticle dupTopicArticle.main_topics
        = (dupTopicArticle.main_topics.filter (fun t => t ≠ "")).map
            (fun t => { topic := t, article := dupTopicArticle,
                        depth := depthLookup dupTopicArticle.discussion_depth t }))
    ∧ depthLookup [("a", (1 : ℚ))] "b" = 1/2
    ∧ emptyTopicsArticle.link ∉
        ((List.flatMap (cluster_topics [emptyTopicsArticle]
            (Except.ok [{ canonical_name := "G", merged_topics := ["X"], category := "c" }]))
          (·.articles)).map (·.link)) := by
  refine ⟨topic_instance_extraction.1 dupTopicArticle,
    topic_instance_extraction.2.1 [("a", (1 : ℚ))] "b" (by simp),
    topic_instance_extraction.2.2 [emptyTopicsArticle] _ emptyTopicsArticle
      (List.mem_singleton.mpr rfl) ?_⟩
  intro b hb _
  rw [List.mem_singleton] at hb
  subst hb
  rfl

/-- C7. Externally-grouped assignment postcondition: proposed groups are
processed in the given order (the emitted canonical names form a subsequence
of the proposed ones — dropped groups are exactly those that received no
article), every emitted cluster is non-empty, its `total_mentions` equals
the length of its `articles` list, and its `avg_depth` is the arithmetic
mean of the depths of its included instances (the `0.5` default of the
source is confined to the empty case, which is never emitted). -/
theorem grouped_assignment_postcondition (articles : List Article)
    (raw : List RawCluster) :
    List.Sublist ((cluster_topics articles (Except.ok raw)).map (·.canonical_name))
      (raw.map (·.canonical_name))
    ∧ ∀ c ∈ cluster_topics articles (Except.ok raw),
        c.articles ≠ []
        ∧ c.total_mentions = c.articles.length
        ∧ c.avg_depth = (c.articles.map (·.depth)).sum / (c.articles.length : ℚ) := by
  unfold cluster_topics cluster_topicsRun
  by_cases h : (allTopics articles).isEmpty
  · simp [h]
  · simp only [if_neg h]
    exact ⟨assignGroups_names_sublist (allTopics articles) raw [],
      assignGroups_mem (allTopics articles) raw []⟩

/-- The articles of the end-to-end scenario of the spec (§8): A and B carry
topic "X" with depths 0.8 and 0.6, C carries topic "Y" with depth 0.2. -/
def articleA : Article :=
  { title := "A", link := "la", source := "s", summary := "", content := "",
    published := "", category := "c", main_topics := ["X"],
    discussion_depth := [("X", 4/5)] }

def articleB : Article :=
  { title := "B", link := "lb", source := "s", summary := "", content := "",
    published := "", category := "c", main_topics := ["X"],
    discussion_depth := [("X", 3/5)] }

def articleC : Article :=
  { title := "C", link := "lc", source := "s", summary := "", content := "",
    published := "", category := "c", main_topics := ["Y"],
    discussion_depth := [("Y", 1/5)] }

/-- The external grouping of the end-to-end scenario: one group for "X",
one for "Y". -/
def rawXY : List RawCluster :=
  [{ canonical_name := "X", merged_topics := ["X"], category := "c1" },
   { canonical_name := "Y", merged_topics := ["Y"], category := "c2" }]

/-- Snapshot of article A as it appears inside cluster "X". -/
def snapA : ArticleSnapshot :=
  { title := "A", link := "la", source := "s", summary := "", content := "",
    depth := 4/5, published := "", category := "c" }

def snapB : ArticleSnapshot :=
  { title := "B", link := "lb", source := "s", summary := "", content := "",
    depth := 3/5, published := "", category := "c" }

def snapC : ArticleSnapshot :=
  { title := "C", link := "lc", source := "s", summary := "", content := "",
    depth := 1/5, published := "", category := "c" }

/-- The "X" cluster of the end-to-end scenario. -/
def clusterX0 : TopicCluster :=
  { canonical_name := "X", category := "c1", articles := [snapA, snapB],
    total_mentions := 2, avg_depth := 7/10 }

/-- The "Y" cluster of the end-to-end scenario. -/
def clusterY0 : TopicCluster :=
  { canonical_name := "Y", category := "c2", articles := [snapC],
    total_mentions := 1, avg_depth := 1/5 }

theorem scenario_clusters_eq :
    cluster_topics [articleA, articleB, articleC] (Except.ok rawXY)
      = [clusterX0, clusterY0] := by
  simp [cluster_topics, cluster_topicsRun, allTopics, articleA, articleB, articleC,
    articleTopicsLoop, depthLookup, rawXY, assignGroups, assignGroup, mkSnapshot,
    snapA, snapB, snapC, clusterX0, clusterY0, List.find?]
  norm_num

/-- Witness for `grouped_assignment_postcondition` at a concrete input. -/
theorem grouped_assignment_postcondition_witness :
    clusterX0 ∈ cluster_topics [articleA, articleB, articleC] (Except.ok rawXY)
    ∧ clusterX0.articles ≠ []
    ∧ clusterX0.total_mentions = clusterX0.articles.length
    ∧ clusterX0.avg_depth
        = (clusterX0.articles.map (·.depth)).sum / (clusterX0.articles.length : ℚ) := by
  have hm : clusterX0 ∈ cluster_topics [articleA, articleB, articleC] (Except.ok rawXY) := by
    rw [scenario_clusters_eq]
    simp
  exact ⟨hm, (grouped_assignment_postcondition [articleA, articleB, articleC] rawXY).2
    clusterX0 hm⟩

theorem heat_clusterX0 : calculate_heat_score [] clusterX0 = 38 := by
  simp only [calculate_heat_score, mention_score, categoryWeightLoop, clusterX0,
    round1, round_half_even]
  norm_num

theorem heat_clusterY0 : calculate_heat_score [] clusterY0 = 17 := by
  simp only [calculate_heat_score, mention_score, categoryWeightLoop, clusterY0,
    round1, round_half_even]
  norm_num

/-- C9. End-to-end scenario: articles A and B tagged "X" (depths 0.8 and
0.6), C tagged "Y" (depth 0.2), the external grouping proposing one group
for "X" and one for "Y", and the category table giving weight 0.5 for both
(the unmatched default): cluster "X" gets `total_mentions = 2`,
`avg_depth = 0.7`, heat 38.0 and rank 1; cluster "Y" gets
`total_mentions = 1`, `avg_depth = 0.2`, heat 17.0 and rank 2; the sorted
order is [X, Y]. -/
theorem end_to_end_scenario :
    (assignRanks (calculate_all_heat_scores []
        (cluster_topics [articleA, articleB, articleC] (Except.ok rawXY)))).map
      (fun r => (r.cluster.canonical_name, r.cluster.total_mentions,
                 r.cluster.avg_depth, r.heat_score, r.rank))
      = [("X", 2, 7/10, 38, 1), ("Y", 1, 1/5, 17, 2)] := by
  rw [scenario_clusters_eq]
  unfold calculate_all_heat_scores
  rw [List.map_cons, List.map_cons, List.map_nil, heat_clusterX0, heat_clusterY0]
  rw [List.mergeSort_of_sorted (by simp; norm_num)]
  simp [assignRanks, clusterX0, clusterY0, List.enum, List.enumFrom]

/-- C2. Heat score: `calculate_heat_score` is exactly
`round1 (min(total_mentions/10·60, 60) + avg_depth·30 + category_weight·10)`
with the weight looked up by first exact name match (default `0.5`);
`(10, 1.0, weight 1.0)` scores 100, `(0, 0, weight 0)` scores 0, and the
mention component saturates at 60 for every `total_mentions ≥ 10`. -/
theorem heat_score_formula (cats : List CategoryEntry) (tc : TopicCluster) :
    calculate_heat_score cats tc
      = round1 (mention_score tc.total_mentions + tc.avg_depth * 30
          + categoryWeightLoop cats tc.category * 10)
    ∧ (tc.total_mentions = 10 → tc.avg_depth = 1 → categoryWeightLoop cats tc.category = 1 →
        calculate_heat_score cats tc = 100)
    ∧ (tc.total_mentions = 0 → tc.avg_depth = 0 → categoryWeightLoop cats tc.category = 0 →
        calculate_heat_score cats tc = 0)
    ∧ (∀ m : ℕ, 10 ≤ m → mention_score m = 60)
    ∧ (∀ (cats2 : List CategoryEntry) (c : String),
        (∀ cat ∈ cats2, cat.name ≠ c) → categoryWeightLoop cats2 c = 1/2) := by
  have hf : calculate_heat_score cats tc
      = round1 (mention_score tc.total_mentions + tc.avg_depth * 30
          + categoryWeightLoop cats tc.category * 10) := rfl
  refine ⟨hf, ?_, ?_, ?_, ?_⟩
  · intro h1 h2 h3
    rw [hf, h1, h2, h3]
    norm_num [mention_score, round1, round_half_even]
  · intro h1 h2 h3
    rw [hf, h1, h2, h3]
    norm_num [mention_score, round1, round_half_even]
  · intro m hm
    unfold mention_score
    rw [min_eq_right]
    have h10 : (10 : ℚ) ≤ (m : ℚ) := by exact_mod_cast hm
    linarith
  · intro cats2 c h
    induction cats2 with
    | nil => rfl
    | cons cat cats ih =>
      rw [categoryWeightLoop, if_neg (h cat (List.mem_cons_self _ _))]
      exact ih (fun x hx => h x (List.mem_cons_of_mem _ hx))

/-- A cluster with saturating mentions, full depth and a weight-1 category. -/
def tcFull : TopicCluster :=
  { canonical_name := "N", category := "t", articles := [],
    total_mentions := 10, avg_depth := 1 }

/-- A cluster with zero mentions and depth and a weight-0 category. -/
def tcZero : TopicCluster :=
  { canonical_name := "N", category := "z", articles := [],
    total_mentions := 0, avg_depth := 0 }

/-- Witness for `heat_score_formula` at concrete inputs. -/
theorem heat_score_formula_witness :
    calculate_heat_score [{ name := "t", priority_weight := 1 }] tcFull = 100
    ∧ calculate_heat_score [{ name := "z", priority_weight := 0 }] tcZero = 0
    ∧ mention_score 20 = 60
    ∧ categoryWeightLoop [] "x" = 1/2 :=
  ⟨(heat_score_formula [{ name := "t", priority_weight := 1 }] tcFull).2.1 rfl rfl
      (by simp [categoryWeightLoop, tcFull]),
   (heat_score_formula [{ name := "z", priority_weight := 0 }] tcZero).2.2.1 rfl rfl
      (by simp [categoryWeightLoop, tcZero]),
   (heat_score_formula [] tcFull).2.2.2.1 20 (by norm_num),
   (heat_score_formula [] tcFull).2.2.2.2 [] "x" (by simp)⟩

/-! ### Sorting and ranking -/

theorem heatLe_trans : ∀ (a b c : ScoredTopic),
    (fun a b : ScoredTopic => decide (b.heat_score ≤ a.heat_score)) a b →
    (fun a b : ScoredTopic => decide (b.heat_score ≤ a.heat_score)) b c →
    (fun a b : ScoredTopic => decide (b.heat_score ≤ a.heat_score)) a c := by
  intro a b c h1 h2
  simp only [decide_eq_true_eq] at h1 h2 ⊢
  exact le_trans h2 h1

theorem heatLe_total : ∀ (a b : ScoredTopic),
    ((fun a b : ScoredTopic => decide (b.heat_score ≤ a.heat_score)) a b
      || (fun a b : ScoredTopic => decide (b.heat_score ≤ a.heat_score)) b a) = true := by
  intro a b
  simp only [Bool.or_eq_true, decide_eq_true_eq]
  exact le_total b.heat_score a.heat_score

theorem mergeSort_heat_pairwise (scored : List ScoredTopic) :
    (scored.mergeSort (fun a b => decide (b.heat_score ≤ a.heat_score))).Pairwise
      (fun a b => b.heat_score ≤ a.heat_score) := by
  have h := List.sorted_mergeSort heatLe_trans heatLe_total scored
  exact h.imp (by intro a b hab; simpa using hab)

theorem mergeSort_heat_filter_stable (scored : List ScoredTopic) (s : ℚ) :
    (scored.mergeSort (fun a b => decide (b.heat_score ≤ a.heat_score))).filter
        (fun t => t.heat_score = s)
      = scored.filter (fun t => t.heat_score = s) := by
  have hxall : ∀ a ∈ scored.filter (fun t => t.heat_score = s), a.heat_score = s := by
    intro a ha
    simpa using List.of_mem_filter ha
  have hx2 : (scored.filter (fun t => t.heat_score = s)).Pairwise
      (fun a b : ScoredTopic => decide (b.heat_score ≤ a.heat_score)) := by
    apply List.pairwise_of_forall_mem_list
    intro a ha b hb
    simp only [decide_eq_true_eq]
    rw [hxall a ha, hxall b hb]
  have hx3 := List.sublist_mergeSort heatLe_trans heatLe_total hx2
    (List.filter_sublist scored)
  have hfs : (scored.filter (fun t => t.heat_score = s)).filter (fun t => t.heat_score = s)
      = scored.filter (fun t => t.heat_score = s) :=
    List.filter_eq_self.mpr (fun a ha => by simp [hxall a ha])
  have hx4 : List.Sublist (scored.filter (fun t => t.heat_score = s))
      ((scored.mergeSort (fun a b => decide (b.heat_score ≤ a.heat_score))).filter
        (fun t => t.heat_score = s)) := by
    have h5 := hx3.filter (fun t => t.heat_score = s)
    rwa [hfs] at h5
  have hperm := (List.mergeSort_perm scored
      (fun a b => decide (b.heat_score ≤ a.heat_score))).filter (fun t => t.heat_score = s)
  exact (hx4.eq_of_length hperm.length_eq.symm).symm

theorem pairwise_zip_tail {α : Type} {R : α → α → Prop} :
    ∀ (l : List α), l.Pairwise R → ∀ p ∈ l.zip l.tail, R p.1 p.2
  | [], _, p, hp => by simp at hp
  | [x], _, p, hp => by simp at hp
  | x :: y :: xs, h, p, hp => by
    rw [List.pairwise_cons] at h
    simp only [List.tail_cons, List.zip_cons_cons, List.mem_cons] at hp
    rcases hp with rfl | hp
    · exact h.1 y (List.mem_cons_self _ _)
    · exact pairwise_zip_tail (y :: xs) h.2 p (by simpa using hp)

theorem assignRanks_ranks (l : List ScoredTopic) :
    (assignRanks l).map (·.rank) = List.range' 1 l.length := by
  unfold assignRanks
  rw [List.map_map]
  have h1 : ((·.rank) ∘ (fun p : ℕ × ScoredTopic =>
      ({ cluster := p.2.cluster, heat_score := p.2.heat_score, rank := p.1 + 1 } : RankedTopic)))
      = (fun n : ℕ => n + 1) ∘ Prod.fst := rfl
  rw [h1, ← List.map_map]
  rw [show l.enum = l.enumFrom 0 from rfl, List.enumFrom_map_fst]
  have h2 : (fun n : ℕ => n + 1) = (fun n : ℕ => 1 + n) := by
    funext n
    omega
  rw [h2]
  exact List.map_add_range' 1 0 l.length 1

/-- C4. Sorting and rank: `calculate_all_heat_scores` returns the scored
clusters sorted by `heat_score` descending; the sort is stable (for every
score value, the tied elements appear exactly as in the scored input
order); the output is a permutation of the scored input; adjacent pairs
satisfy `heat_score[i] ≥ heat_score[i+1]`; and the ranks subsequently
assigned by `save_heat_scores` form the contiguous sequence `1, …, n` in
sorted order. -/
theorem heat_sorting (cats : List CategoryEntry) (l : List TopicCluster) :
    (calculate_all_heat_scores cats l).Pairwise
      (fun a b : ScoredTopic => b.heat_score ≤ a.heat_score)
    ∧ (∀ p ∈ (calculate_all_heat_scores cats l).zip (calculate_all_heat_scores cats l).tail,
        p.2.heat_score ≤ p.1.heat_score)
    ∧ List.Perm (calculate_all_heat_scores cats l)
        (l.map (fun c => { cluster := c, heat_score := calculate_heat_score cats c }))
    ∧ (∀ s : ℚ, (calculate_all_heat_scores cats l).filter (fun t => t.heat_score = s)
        = (l.map (fun c => { cluster := c, heat_score := calculate_heat_score cats c })).filter
            (fun t => t.heat_score = s))
    ∧ (assignRanks (calculate_all_heat_scores cats l)).map (·.rank)
        = List.range' 1 (calculate_all_heat_scores cats l).length := by
  refine ⟨mergeSort_heat_pairwise _, ?_, List.mergeSort_perm _ _,
    fun s => mergeSort_heat_filter_stable _ s, assignRanks_ranks _⟩
  exact pairwise_zip_tail _ (mergeSort_heat_pairwise _)

/-- The scored "X" cluster of the scenario. -/
def stX : ScoredTopic := { cluster := clusterX0, heat_score := 38 }

/-- The scored "Y" cluster of the scenario. -/
def stY : ScoredTopic := { cluster := clusterY0, heat_score := 17 }

/-- Witness for `heat_sorting` at a concrete input. -/
theorem heat_sorting_witness :
    (stX, stY) ∈ (calculate_all_heat_scores [] [clusterX0, clusterY0]).zip
      (calculate_all_heat_scores [] [clusterX0, clusterY0]).tail
    ∧ stY.heat_score ≤ stX.heat_score := by
  have hsc : calculate_all_heat_scores [] [clusterX0, clusterY0] = [stX, stY] := by
    unfold calculate_all_heat_scores
    rw [List.map_cons, List.map_cons, List.map_nil, heat_clusterX0, heat_clusterY0]
    rw [List.mergeSort_of_sorted (by simp [stX, stY]; norm_num)]
    simp [stX, stY]
  have hp : (stX, stY) ∈ (calculate_all_heat_scores [] [clusterX0, clusterY0]).zip
      (calculate_all_heat_scores [] [clusterX0, clusterY0]).tail := by
    rw [hsc]
    simp
  exact ⟨hp, (heat_sorting [] [clusterX0, clusterY0]).2.1 (stX, stY) hp⟩

/-! ### Configuration-error handling -/

/-- A parse outcome that would succeed, showing that a degradation is
caused by the missing key alone. -/
def okParse : String → Except String ExtractResult :=
  fun _ => Except.ok { main_topics := ["t"], category := "c", keywords := ["k"],
                       discussion_depth := [("t", 1)] }

/-- Counterexample to C8 as stated: with the API key missing from the
configuration, the pipeline still enters the extraction stage,
`call_zhipu_ai` raises only at call time, and `extract_topics_from_article`
catches the `ValueError` and converts it into the degraded empty-topics
result — so the configuration error is not raised at startup before the
stages run, and it is converted into degraded data. -/
theorem config_error_degraded_counterexample :
    call_zhipu_ai { zhipu_api_key := none } (Except.ok "resp")
      = Except.error "ValueError: zhipu api key not configured"
    ∧ extract_topics_from_article { zhipu_api_key := none } "行业动态"
        (Except.ok "resp") okParse
      = { main_topics := [], category := "行业动态", keywords := [],
          discussion_depth := [] } :=
  ⟨rfl, rfl⟩

/-- C8 (amended). A missing (or empty) API key makes `call_zhipu_ai` raise
`ValueError` at call time inside whichever stage calls it — there is no
startup validation; the extraction stage catches the error per-article and
converts it into the degraded empty-topics result with the configured
default category, so the run continues instead of aborting. -/
theorem config_error_behavior (config : PipelineConfig) (defaultCategory : String)
    (service : Except String String) (parse : String → Except String ExtractResult)
    (h : config.zhipu_api_key = none ∨ config.zhipu_api_key = some "") :
    call_zhipu_ai config service = Except.error "ValueError: zhipu api key not configured"
    ∧ extract_topics_from_article config defaultCategory service parse
      = { main_topics := [], category := defaultCategory, keywords := [],
          discussion_depth := [] } := by
  have hc : call_zhipu_ai config service
      = Except.error "ValueError: zhipu api key not configured" := by
    rcases h with h | h <;> simp [call_zhipu_ai, h]
  refine ⟨hc, ?_⟩
  unfold extract_topics_from_article
  rw [hc]

/-- Witness for `config_error_behavior` at a concrete input. -/
theorem config_error_behavior_witness :
    call_zhipu_ai { zhipu_api_key := some "" } (Except.ok "resp")
      = Except.error "ValueError: zhipu api key not configured"
    ∧ extract_topics_from_article { zhipu_api_key := some "" } "行业动态"
        (Except.ok "resp") okParse
      = { main_topics := [], category := "行业动态", keywords := [],
          discussion_depth := [] } :=
  config_error_behavior { zhipu_api_key := some "" } "行业动态" (Except.ok "resp") okParse
    (Or.inr rfl)
